import Mathlib

/-!
Shallow embedding of the klio-logger-go package (logger.go): the Level
constants, ParseLevel, the Logger record with its cached control-sequence
line header, the Go encoding/json string escaping used when the header is
recomputed, Print, and the io.Writer line-splitting adapter Write
(bufio.Scanner with the ScanLines split function).

Go strings and byte slices are modelled as Lean strings / lists of Char
(one Char per byte; all protocol bytes are ASCII).  The Go field
`linePrefix` is modelled by the record field `lineHdr`, and the method
`updateLinePrefix` by `updateLineHdr`.  A Go `[]string` value is modelled
as `Option (List String)`: `none` is the nil slice (which is what a
variadic call `WithTags()` with zero arguments passes), `some ts` a
non-nil slice with elements `ts`.
-/

namespace Klio

/-- The escape byte 0x1B used by the Klio control sequences. -/
def escChar : Char := Char.ofNat 27

/-- The escape byte as a one-character string ("\033" in logger.go). -/
def escS : String := String.mk [escChar]

/-- Level constant from logger.go (type Level is a string). -/
def FatalLevel : String := "fatal"

/-- Level constant from logger.go. -/
def ErrorLevel : String := "error"

/-- Level constant from logger.go. -/
def WarnLevel : String := "warn"

/-- Level constant from logger.go. -/
def InfoLevel : String := "info"

/-- Level constant from logger.go. -/
def VerboseLevel : String := "verbose"

/-- Level constant from logger.go. -/
def DebugLevel : String := "debug"

/-- Level constant from logger.go. -/
def SpamLevel : String := "spam"

/-- DefaultLevel is an alias for the "info" level. -/
def DefaultLevel : String := InfoLevel

/-- Go unicode.ToLower (the simple Unicode lowercase mapping used by
strings.ToLower), modelled exactly on every character whose lowercase is
ASCII: the ASCII uppercase letters, and the only two non-ASCII code
points Unicode lowers into ASCII — U+0130 (Latin capital I with dot
above, simple lowercase mapping i) and U+212A (Kelvin sign, lowercase k).
Every remaining character either is already lowercase or lowers to a
non-ASCII character in Go, and is modelled as the identity: since the
levelsMap keys are all ASCII, such a character makes the folded string
miss the map under both the real mapping and the identity, so the
restriction cannot change ParseLevel's result on any input. -/
def lowerChar (c : Char) : Char :=
  if 'A' ≤ c ∧ c ≤ 'Z' then Char.ofNat (c.toNat + 32)
  else if c.toNat = 0x130 then 'i'
  else if c.toNat = 0x212A then 'k'
  else c

/-- Go strings.ToLower applied to a whole string (unicode.ToLower per
rune, as modelled by lowerChar). -/
def goToLower (s : String) : String := String.mk (s.data.map lowerChar)

/-- The list of the seven known level names, all lowercase. -/
def levelNames : List String :=
  [FatalLevel, ErrorLevel, WarnLevel, InfoLevel, VerboseLevel, DebugLevel, SpamLevel]

/-- The package-level levelsMap of logger.go, as a lookup function from the
lowercased name to the canonical Level. -/
def levelsMap (s : String) : Option String :=
  if s = FatalLevel then some FatalLevel
  else if s = ErrorLevel then some ErrorLevel
  else if s = WarnLevel then some WarnLevel
  else if s = InfoLevel then some InfoLevel
  else if s = VerboseLevel then some VerboseLevel
  else if s = DebugLevel then some DebugLevel
  else if s = SpamLevel then some SpamLevel
  else none

/-- ParseLevel from logger.go: lowercase the argument, look it up in
levelsMap; on a miss return DefaultLevel and false. -/
def ParseLevel (s : String) : String × Bool :=
  match levelsMap (goToLower s) with
  | some l => (l, true)
  | none => (DefaultLevel, false)

/-- Lowercase hexadecimal digit, as produced by Go encoding/json. -/
def hexDigit (n : Nat) : Char :=
  if n < 10 then Char.ofNat (48 + n) else Char.ofNat (87 + n)

/-- Escaping of a single character by Go encoding/json string encoding
(json.Marshal with its default HTML escaping): quote and backslash get a
backslash escape, newline / carriage return / tab get their short escapes,
the HTML-sensitive characters and all other control characters below 0x20
become \u00XX, and U+2028 / U+2029 are escaped as well; every other
character is passed through. -/
def escapeChar (c : Char) : String :=
  if c = '"' then "\\\""
  else if c = '\\' then "\\\\"
  else if c = '\n' then "\\n"
  else if c = '\r' then "\\r"
  else if c = '\t' then "\\t"
  else if c = '<' then "\\u003c"
  else if c = '>' then "\\u003e"
  else if c = '&' then "\\u0026"
  else if c.toNat < 32 then
    String.mk ['\\', 'u', '0', '0', hexDigit (c.toNat / 16), hexDigit (c.toNat % 16)]
  else if c.toNat = 8232 then "\\u2028"
  else if c.toNat = 8233 then "\\u2029"
  else String.mk [c]

/-- Character-by-character escaping of a whole string body. -/
def escapeList : List Char → List Char
  | [] => []
  | c :: cs => (escapeChar c).data ++ escapeList cs

/-- Go json.Marshal output for a string value: quoted, body escaped. -/
def jsonQuote (s : String) : String :=
  String.mk ('"' :: (escapeList s.data ++ ['"']))

/-- Elements of a marshalled JSON string array, comma separated. -/
def jsonArrayItems : List String → List Char
  | [] => []
  | t :: ts => (jsonQuote t).data ++ ((if ts.isEmpty then [] else [',']) ++ jsonArrayItems ts)

/-- Go json.Marshal output for a non-nil []string value. -/
def jsonArray (ts : List String) : String :=
  String.mk ('[' :: (jsonArrayItems ts ++ [']']))

/-- Go json.Marshal applied to the level field.  Marshalling a Go string
value never returns an error, so the result is always ok. -/
def jsonMarshalLevel (level : String) : Except String String :=
  .ok (jsonQuote level)

/-- Go json.Marshal applied to the tags field: the nil slice marshals to
the four bytes "null", a non-nil slice to a JSON array.  Marshalling a
[]string never returns an error. -/
def jsonMarshalTags : Option (List String) → Except String String
  | none => .ok "null"
  | some ts => .ok (jsonArray ts)

/-- updateLinePrefix from logger.go: marshal the level (substituting the
quoted default level if marshalling failed), marshal the tags
(substituting "[]" on failure or when the result is "null"), and format
the two control sequences. -/
def updateLineHdr (level : String) (tags : Option (List String)) : String :=
  let lv := match jsonMarshalLevel level with
    | .ok b => b
    | .error _ => "\"" ++ DefaultLevel ++ "\""
  let tg := match jsonMarshalTags tags with
    | .ok b => if b = "null" then "[]" else b
    | .error _ => "[]"
  escS ++ "_klio_log_level " ++ lv ++ escS ++ "\\" ++ escS ++ "_klio_tags " ++ tg ++ escS ++ "\\"

/-- A sink (io.Writer): `calls` records the payload of every Write call
made on it, in order; `failAll` makes every Write call report an error
(the bookkeeping of a test double for a failing writer). -/
structure Sink where
  calls : List String
  failAll : Bool
deriving DecidableEq

/-- One Write call on a sink: the call is recorded, and the sink reports
either an error or the number of bytes written. -/
def Sink.write (s : Sink) (chunk : String) : Sink × Except String Nat :=
  ({ s with calls := s.calls ++ [chunk] },
   if s.failAll then .error "write error" else .ok chunk.length)

/-- The Logger record of logger.go.  `output` is the identity of the
io.Writer the logger holds (the sink state itself is passed explicitly to
Print and Write); `lineHdr` is the cached linePrefix field. -/
structure Logger where
  output : Nat
  tags : Option (List String)
  level : String
  lineHdr : String
deriving DecidableEq

/-- New from logger.go: empty (non-nil) tags, default level, and the line
header computed by updateLinePrefix. -/
def New (output : Nat) : Logger :=
  { output := output, tags := some [], level := DefaultLevel,
    lineHdr := updateLineHdr DefaultLevel (some []) }

/-- WithLevel from logger.go: copy the receiver, replace the level,
recompute the line header. -/
def Logger.WithLevel (l : Logger) (level : String) : Logger :=
  { l with level := level, lineHdr := updateLineHdr level l.tags }

/-- WithTags from logger.go: copy the receiver, replace the tags slice by
the variadic argument slice (nil when no arguments were given), recompute
the line header. -/
def Logger.WithTags (l : Logger) (tags : Option (List String)) : Logger :=
  { l with tags := tags, lineHdr := updateLineHdr l.level tags }

/-- The Level getter of logger.go. -/
def Logger.Level (l : Logger) : String := l.level

/-- The Tags getter of logger.go: make a fresh slice of the same length
and copy the elements over; at the level of values this returns the
element list (empty for the nil slice).  The aliasing aspect of the
defensive copy is modelled separately by `tagsMethodS` below. -/
def Logger.Tags (l : Logger) : List String := l.tags.getD []

/-- The fixed reset trailer appended by Print, newline included. -/
def resetTrailer : String := escS ++ "_klio_reset" ++ escS ++ "\\" ++ "\n"

/-- Print from logger.go: concatenate the cached line header, the
formatted message and the reset trailer, and hand the result to the sink
in a single Write call whose return values are discarded.  (The variadic
arguments have already been formatted by fmt.Sprint into `msg`; Print
returns its receiver, which the model leaves implicit.) -/
def Logger.Print (l : Logger) (msg : String) (s : Sink) : Sink :=
  (s.write (l.lineHdr ++ msg ++ resetTrailer)).1

/-- Printf from logger.go: format, then delegate to Print.  The formatted
text is the argument here, exactly as for Print. -/
def Logger.Printf (l : Logger) (formatted : String) (s : Sink) : Sink :=
  l.Print formatted s

/-- bufio.MaxScanTokenSize: the largest token the default scanner buffer
can hold; a line of this many bytes or more makes Scan fail with
ErrTooLong. -/
def maxScanTokenSize : Nat := 65536

/-- dropCR from bufio.ScanLines: strip one trailing carriage return. -/
def dropCR (xs : List Char) : List Char :=
  if xs.getLast? = some '\r' then xs.dropLast else xs

/-- The raw newline-separated segments of the input, in order, as
bufio.ScanLines walks them: a '\n' byte ends a segment (the byte itself
belongs to no segment), a non-empty remainder at the end of input is a
final segment, and an empty remainder (input empty or ending in '\n')
yields none.  `acc` holds the current segment reversed. -/
def rawSegments (acc : List Char) : List Char → List (List Char)
  | [] => if acc.isEmpty then [] else [acc.reverse]
  | c :: rest =>
    if c = '\n' then acc.reverse :: rawSegments [] rest
    else rawSegments (c :: acc) rest

/-- Whether a raw segment fits in the scanner's maximal buffer. -/
def segFits (seg : List Char) : Bool := seg.length < maxScanTokenSize

/-- The tokens the scanner actually produces: the segments before the
first over-long one, each with a trailing carriage return stripped. -/
def scanTokens (p : List Char) : List String :=
  ((rawSegments [] p).takeWhile segFits).map (fun seg => String.mk (dropCR seg))

/-- Whether scanning the input fails with ErrTooLong. -/
def scanFails (p : List Char) : Bool :=
  (rawSegments [] p).any (fun seg => ! segFits seg)

/-- Write from logger.go (the io.Writer adapter): scan the buffer line by
line, Print each scanned token in order, then return (0, err) if the
scanner reported an error and (len p, nil) otherwise.  Errors returned by
the sink inside Print are discarded by Print itself and never reach this
function. -/
def Logger.Write (l : Logger) (p : List Char) (s : Sink) : Sink × Nat × Option String :=
  let s2 := (scanTokens p).foldl (fun st t => l.Print t st) s
  if scanFails p then (s2, 0, some "bufio.Scanner: token too long")
  else (s2, p.length, none)

/-- The loggers reachable through New, WithLevel and WithTags. -/
inductive Reachable : Logger → Prop
  | new (output : Nat) : Reachable (New output)
  | withLevel (l : Logger) (level : String) : Reachable l → Reachable (l.WithLevel level)
  | withTags (l : Logger) (tags : Option (List String)) : Reachable l → Reachable (l.WithTags tags)

/-- A heap of Logger values addressed by Nat identifiers, for stating
frame properties of the pointer-receiver methods: `n := *l` copies the
receiver and the result is returned as a pointer to a fresh cell. -/
def LHeap : Type := Nat → Logger

/-- WithLevel at the heap level: read the receiver cell, build the copy
with the new level and recomputed header, store it in a fresh cell, and
return (pointer to the new cell, new heap, next free identifier). -/
def withLevelH (h : LHeap) (next recv : Nat) (level : String) : Nat × LHeap × Nat :=
  (next, fun i => if i = next then (h recv).WithLevel level else h i, next + 1)

/-- WithTags at the heap level, analogous to `withLevelH`. -/
def withTagsH (h : LHeap) (next recv : Nat) (tags : Option (List String)) : Nat × LHeap × Nat :=
  (next, fun i => if i = next then (h recv).WithTags tags else h i, next + 1)

/-- A heap of string slices addressed by Nat identifiers, for stating the
aliasing part of the Tags defensive copy. -/
def SHeap : Type := Nat → List String

/-- A logger as seen by the Tags getter: the identity of its tags slice. -/
structure LoggerS where
  tagsId : Nat
deriving DecidableEq

/-- The Tags getter at the heap level: `r := make([]string, len(l.tags));
copy(r, l.tags); return r` allocates a fresh slice whose contents equal
the receiver's tags and returns a reference to it (never the receiver's
own slice). -/
def tagsMethodS (h : SHeap) (next : Nat) (l : LoggerS) : Nat × SHeap × Nat :=
  (next, fun i => if i = next then h l.tagsId else h i, next + 1)

/-- An in-place store through a slice reference: `slice[i] = v`. -/
def sliceSet (h : SHeap) (id i : Nat) (v : String) : SHeap :=
  fun j => if j = id then (h id).set i v else h j

/-- Characters that may legally follow a backslash inside a JSON string
(the escape continuations of RFC 8259). -/
def escCont (c : Char) : Bool :=
  c = '"' || c = '\\' || c = '/' || c = 'b' || c = 'f' ||
  c = 'n' || c = 'r' || c = 't' || c = 'u'

/-- Every backslash in the byte sequence begins a JSON escape: it is
followed by an escape continuation character, and the pair is consumed so
that the second byte of an escaped backslash is not itself read as an
escape introducer.  A backslash that fails this is an unescaped one. -/
def noUnescapedBS : List Char → Bool
  | [] => true
  | [c] => ! (c = '\\')
  | c :: d :: rest =>
    if c = '\\' then escCont d && noUnescapedBS rest
    else noUnescapedBS (d :: rest)

/-! Helper lemmas shared by several of the claim theorems. -/

theorem print_calls (l : Logger) (msg : String) (s : Sink) :
    (l.Print msg s).calls = s.calls ++ [l.lineHdr ++ msg ++ resetTrailer] := rfl

theorem print_foldl_calls (l : Logger) (toks : List String) (s : Sink) :
    (toks.foldl (fun st t => l.Print t st) s).calls =
      s.calls ++ toks.map (fun t => l.lineHdr ++ t ++ resetTrailer) := by
  induction toks generalizing s with
  | nil => simp
  | cons t ts ih =>
    simp only [List.foldl_cons, List.map_cons, ih, print_calls, List.append_assoc,
      List.singleton_append]

theorem jsonArray_ne_null (ts : List String) : jsonArray ts ≠ "null" := by
  intro h
  have h3 : '[' :: (jsonArrayItems ts ++ [']']) = ['n', 'u', 'l', 'l'] :=
    congrArg String.data h
  simp at h3

/-- C4: ParseLevel is total; every letter-case variant of one of the
seven known names (every string Go's case folding sends to that name,
Unicode variants such as the dotted capital I included) maps to that
canonical name with flag true, and every other string — no whitespace
trimming happens — maps to the default level "info" with flag false. -/
theorem parseLevel_total_correct (s : String) :
    (∀ name, name ∈ levelNames → goToLower s = name → ParseLevel s = (name, true)) ∧
    ((∀ name ∈ levelNames, goToLower s ≠ name) → ParseLevel s = (InfoLevel, false)) := by
  constructor
  · intro name hmem hcv
    unfold ParseLevel
    rw [hcv]
    fin_cases hmem <;> rfl
  · intro hnone
    have h1 := hnone FatalLevel (by simp [levelNames])
    have h2 := hnone ErrorLevel (by simp [levelNames])
    have h3 := hnone WarnLevel (by simp [levelNames])
    have h4 := hnone InfoLevel (by simp [levelNames])
    have h5 := hnone VerboseLevel (by simp [levelNames])
    have h6 := hnone DebugLevel (by simp [levelNames])
    have h7 := hnone SpamLevel (by simp [levelNames])
    unfold ParseLevel levelsMap
    rw [if_neg h1, if_neg h2, if_neg h3, if_neg h4, if_neg h5, if_neg h6, if_neg h7]
    rfl

/-- Witness for C4: the case variant "SpAm" parses to ("spam", true), the
Unicode case variant "İNFO" (capital dotted I, which Go lowers to the
ASCII i) to ("info", true), and "  spam" — a known name with leading
whitespace — to ("info", false). -/
theorem parseLevel_total_correct_witness :
    ParseLevel "SpAm" = (SpamLevel, true) ∧ ParseLevel "İNFO" = (InfoLevel, true) ∧
    ParseLevel "  spam" = (InfoLevel, false) :=
  ⟨(parseLevel_total_correct "SpAm").1 SpamLevel (by decide) (by decide),
   (parseLevel_total_correct "İNFO").1 InfoLevel (by decide) (by decide),
   (parseLevel_total_correct "  spam").2 (by decide)⟩

/-- C2: every logger reachable through New, WithLevel and WithTags has its
cached line header equal to the encoder applied to its current level and
tags (the header is recomputed by each constructor), and Print writes
using exactly that header — nothing is computed lazily at write time. -/
theorem reachable_hdr_consistent (l : Logger) (h : Reachable l) :
    l.lineHdr = updateLineHdr l.level l.tags ∧
    ∀ msg s, (l.Print msg s).calls =
      s.calls ++ [updateLineHdr l.level l.tags ++ msg ++ resetTrailer] := by
  have hc : l.lineHdr = updateLineHdr l.level l.tags := by
    induction h with
    | new output => rfl
    | withLevel l level _ _ => rfl
    | withTags l tags _ _ => rfl
  exact ⟨hc, fun msg s => by rw [print_calls, hc]⟩

/-- Witness for C2 at the concrete logger New 0. -/
theorem reachable_hdr_consistent_witness :
    (New 0).lineHdr = updateLineHdr (New 0).level (New 0).tags :=
  (reachable_hdr_consistent (New 0) (Reachable.new 0)).1

/-- C1: for a logger whose cached header is consistent with its level and
tag list (as every constructor of the package keeps it), Print hands the
sink, in a single Write call, exactly the bytes
ESC "_klio_log_level " json-level ESC "\" ESC "_klio_tags " json-tags
ESC "\" message ESC "_klio_reset" ESC "\" newline, with the message bytes
unaltered and unescaped. -/
theorem print_exact_bytes (l : Logger) (ts : List String) (msg : String) (s : Sink)
    (htags : l.tags = some ts)
    (hhdr : l.lineHdr = updateLineHdr l.level l.tags) :
    (l.Print msg s).calls = s.calls ++
      [escS ++ "_klio_log_level " ++ jsonQuote l.level ++ escS ++ "\\" ++
       escS ++ "_klio_tags " ++ jsonArray ts ++ escS ++ "\\" ++
       msg ++ escS ++ "_klio_reset" ++ escS ++ "\\" ++ "\n"] := by
  rw [print_calls, hhdr, htags]
  simp [updateLineHdr, jsonMarshalLevel, jsonMarshalTags, jsonArray_ne_null ts,
    resetTrailer, String.append_assoc]

/-- Witness for C1: a logger with level "spam" and tags a, b, c printing
"foo" emits the exact record checked in the repository's own tests. -/
theorem print_exact_bytes_witness :
    ((((New 0).WithTags (some ["a", "b", "c"])).WithLevel SpamLevel).Print "foo"
        { calls := [], failAll := false }).calls =
      ["\x1b_klio_log_level \"spam\"\x1b\\\x1b_klio_tags [\"a\",\"b\",\"c\"]\x1b\\foo\x1b_klio_reset\x1b\\\n"] := by
  rw [print_exact_bytes (((New 0).WithTags (some ["a", "b", "c"])).WithLevel SpamLevel)
    ["a", "b", "c"] "foo" { calls := [], failAll := false } rfl rfl]
  decide

theorem scanTokens_of_ok (p : List Char) (hscan : scanFails p = false) :
    scanTokens p = (rawSegments [] p).map (fun seg => String.mk (dropCR seg)) := by
  unfold scanTokens
  rw [List.takeWhile_eq_self_iff.mpr]
  intro seg hmem
  unfold scanFails at hscan
  rw [List.any_eq_false] at hscan
  have hseg := hscan seg hmem
  simpa using hseg

theorem write_ok_calls (l : Logger) (p : List Char) (s : Sink)
    (hscan : scanFails p = false) :
    (l.Write p s).1.calls = s.calls ++
      (rawSegments [] p).map
        (fun seg => l.lineHdr ++ String.mk (dropCR seg) ++ resetTrailer) := by
  simp only [Logger.Write, hscan, Bool.false_eq_true, if_false]
  rw [print_foldl_calls, scanTokens_of_ok p hscan, List.map_map]
  rfl

theorem write_ok_ret (l : Logger) (p : List Char) (s : Sink)
    (hscan : scanFails p = false) :
    (l.Write p s).2 = (p.length, none) := by
  simp [Logger.Write, hscan]

/-- C5: when line scanning succeeds, Write splits the buffer on newline
bytes and Prints one record per scanned line in input order (the final
line needs no trailing newline), returning the full input length with a
nil error. -/
theorem write_success (l : Logger) (p : List Char) (s : Sink)
    (hscan : scanFails p = false) :
    (l.Write p s).2 = (p.length, none) ∧
    (l.Write p s).1.calls = s.calls ++
      (rawSegments [] p).map
        (fun seg => l.lineHdr ++ String.mk (dropCR seg) ++ resetTrailer) :=
  ⟨write_ok_ret l p s hscan, write_ok_calls l p s hscan⟩

/-- Witness for C5: writing the seven bytes foo-newline-bar produces two
independent records and returns (7, nil). -/
theorem write_success_witness :
    ((New 0).Write "foo\nbar".data { calls := [], failAll := false }).2 = (7, none) ∧
    ((New 0).Write "foo\nbar".data { calls := [], failAll := false }).1.calls =
      ["\x1b_klio_log_level \"info\"\x1b\\\x1b_klio_tags []\x1b\\foo\x1b_klio_reset\x1b\\\n",
       "\x1b_klio_log_level \"info\"\x1b\\\x1b_klio_tags []\x1b\\bar\x1b_klio_reset\x1b\\\n"] := by
  refine ⟨(write_success (New 0) "foo\nbar".data _ (by decide)).1, ?_⟩
  rw [(write_success (New 0) "foo\nbar".data { calls := [], failAll := false } (by decide)).2]
  decide

theorem rawSegments_newline_len (q : List Char) :
    ∀ acc, (rawSegments acc (q ++ ['\n'])).length = q.count '\n' + 1 := by
  induction q with
  | nil =>
    intro acc
    simp [rawSegments]
  | cons c rest ih =>
    intro acc
    by_cases hc : c = '\n'
    · subst hc
      simp [rawSegments, ih, List.count_cons]
    · simp [rawSegments, hc, ih, List.count_cons]

/-- C10: the adapter never prints a record for the empty remainder after a
trailing newline — for an input ending in a newline the number of records
equals the number of newline bytes — and the empty buffer produces no
records and returns (0, nil). -/
theorem write_no_empty_trailing_record (l : Logger) (q : List Char) (s : Sink)
    (hscan : scanFails (q ++ ['\n']) = false) :
    (l.Write (q ++ ['\n']) s).1.calls.length =
      s.calls.length + (q ++ ['\n']).count '\n' ∧
    l.Write [] s = (s, 0, none) := by
  constructor
  · rw [write_ok_calls l (q ++ ['\n']) s hscan]
    simp [rawSegments_newline_len q, List.count_append]
  · rfl

/-- Witness for C10: writing the four bytes foo-newline produces exactly
one record (and no empty second record). -/
theorem write_no_empty_trailing_record_witness :
    ((New 0).Write "foo\n".data { calls := [], failAll := false }).1.calls.length = 0 + 1 ∧
    (New 0).Write [] { calls := [], failAll := false } =
      ({ calls := [], failAll := false }, 0, none) :=
  write_no_empty_trailing_record (New 0) ['f', 'o', 'o'] { calls := [], failAll := false }
    (by decide)

/-- C6 fails on the code: a sink write failure during the adapter's Write
is not surfaced.  With a sink failing every write, writing "foo" still
returns (3, nil) — not zero bytes consumed with a non-nil error — because
Print discards the sink's error before Write can observe it. -/
theorem write_sink_failure_counterexample :
    ((New 0).Write "foo".data { calls := [], failAll := true }).2 = (3, none) ∧
    ¬ (((New 0).Write "foo".data { calls := [], failAll := true }).2.1 = 0 ∧
       ((New 0).Write "foo".data { calls := [], failAll := true }).2.2 ≠ none) := by
  decide

/-- C6 amended: only scan failures are surfaced by Write — as zero bytes
consumed and a non-nil error — while sink write failures never are: for
every sink, failing or not, the returned pair depends only on whether
scanning succeeded, and on success it is (len p, nil). -/
theorem write_error_result (l : Logger) (p : List Char) (s : Sink) :
    (l.Write p s).2 =
      if scanFails p then (0, some "bufio.Scanner: token too long")
      else (p.length, none) := by
  cases hb : scanFails p <;> simp [Logger.Write, hb]

theorem hexDigit_ne : ∀ n, n < 16 → hexDigit n ≠ '\\' ∧ hexDigit n ≠ escChar := by
  decide

theorem nub_single (c : Char) (rest : List Char) (hc : ¬ c = '\\') :
    noUnescapedBS (c :: rest) = noUnescapedBS rest := by
  cases rest with
  | nil => simp [noUnescapedBS, hc]
  | cons d r => simp [noUnescapedBS, hc]

theorem nub_singles (xs rest : List Char) (hxs : ∀ c ∈ xs, ¬ c = '\\') :
    noUnescapedBS (xs ++ rest) = noUnescapedBS rest := by
  induction xs with
  | nil => rfl
  | cons c cs ih =>
    rw [List.cons_append, nub_single c (cs ++ rest) (hxs c (List.mem_cons_self c cs)),
      ih (fun d hd => hxs d (List.mem_cons_of_mem c hd))]

theorem nub_block (d : Char) (tail rest : List Char) (hd : escCont d = true)
    (htail : ∀ c ∈ tail, ¬ c = '\\') :
    noUnescapedBS (('\\' :: d :: tail) ++ rest) = noUnescapedBS rest := by
  rw [List.cons_append, List.cons_append]
  rw [show noUnescapedBS ('\\' :: d :: (tail ++ rest)) =
    (escCont d && noUnescapedBS (tail ++ rest)) from by simp [noUnescapedBS]]
  rw [hd, Bool.true_and, nub_singles tail rest htail]

set_option maxHeartbeats 1000000 in
theorem escapeChar_no_esc (c : Char) : escChar ∉ (escapeChar c).data := by
  unfold escapeChar
  split_ifs with h1 h2 h3 h4 h5 h6 h7 h8 h9 h10 h11
  · decide
  · decide
  · decide
  · decide
  · decide
  · decide
  · decide
  · decide
  · have hdiv : c.toNat / 16 < 16 := by omega
    have hmod : c.toNat % 16 < 16 := by omega
    intro hmem
    rcases List.mem_cons.mp hmem with h | hmem
    · exact absurd h (by decide)
    rcases List.mem_cons.mp hmem with h | hmem
    · exact absurd h (by decide)
    rcases List.mem_cons.mp hmem with h | hmem
    · exact absurd h (by decide)
    rcases List.mem_cons.mp hmem with h | hmem
    · exact absurd h (by decide)
    rcases List.mem_cons.mp hmem with h | hmem
    · exact (hexDigit_ne _ hdiv).2 h.symm
    rcases List.mem_cons.mp hmem with h | hmem
    · exact (hexDigit_ne _ hmod).2 h.symm
    · exact absurd hmem (List.not_mem_nil escChar)
  · decide
  · decide
  · intro hmem
    rcases List.mem_cons.mp hmem with h | hmem
    · rw [← h] at h9
      exact h9 (by decide)
    · exact absurd hmem (List.not_mem_nil escChar)

set_option maxHeartbeats 1000000 in
theorem escapeChar_nub (c : Char) (rest : List Char) (hr : noUnescapedBS rest = true) :
    noUnescapedBS ((escapeChar c).data ++ rest) = true := by
  unfold escapeChar
  split_ifs with h1 h2 h3 h4 h5 h6 h7 h8 h9 h10 h11
  · rw [show ("\\\"" : String).data = ['\\', '"'] from rfl,
      nub_block '"' [] rest (by decide) (by simp)]
    exact hr
  · rw [show ("\\\\" : String).data = ['\\', '\\'] from rfl,
      nub_block '\\' [] rest (by decide) (by simp)]
    exact hr
  · rw [show ("\\n" : String).data = ['\\', 'n'] from rfl,
      nub_block 'n' [] rest (by decide) (by simp)]
    exact hr
  · rw [show ("\\r" : String).data = ['\\', 'r'] from rfl,
      nub_block 'r' [] rest (by decide) (by simp)]
    exact hr
  · rw [show ("\\t" : String).data = ['\\', 't'] from rfl,
      nub_block 't' [] rest (by decide) (by simp)]
    exact hr
  · rw [show ("\\u003c" : String).data = ['\\', 'u', '0', '0', '3', 'c'] from rfl,
      nub_block 'u' ['0', '0', '3', 'c'] rest (by decide) (by decide)]
    exact hr
  · rw [show ("\\u003e" : String).data = ['\\', 'u', '0', '0', '3', 'e'] from rfl,
      nub_block 'u' ['0', '0', '3', 'e'] rest (by decide) (by decide)]
    exact hr
  · rw [show ("\\u0026" : String).data = ['\\', 'u', '0', '0', '2', '6'] from rfl,
      nub_block 'u' ['0', '0', '2', '6'] rest (by decide) (by decide)]
    exact hr
  · have hdiv : c.toNat / 16 < 16 := by omega
    have hmod : c.toNat % 16 < 16 := by omega
    have htail : ∀ x ∈ ['0', '0', hexDigit (c.toNat / 16), hexDigit (c.toNat % 16)],
        ¬ x = '\\' := by
      intro x hx
      rcases List.mem_cons.mp hx with h | hx
      · subst h; decide
      rcases List.mem_cons.mp hx with h | hx
      · subst h; decide
      rcases List.mem_cons.mp hx with h | hx
      · subst h; exact (hexDigit_ne _ hdiv).1
      rcases List.mem_cons.mp hx with h | hx
      · subst h; exact (hexDigit_ne _ hmod).1
      · exact absurd hx (List.not_mem_nil x)
    rw [show (String.mk ['\\', 'u', '0', '0', hexDigit (c.toNat / 16),
        hexDigit (c.toNat % 16)]).data =
        '\\' :: 'u' :: ['0', '0', hexDigit (c.toNat / 16), hexDigit (c.toNat % 16)]
        from rfl,
      nub_block 'u' _ rest (by decide) htail]
    exact hr
  · rw [show ("\\u2028" : String).data = ['\\', 'u', '2', '0', '2', '8'] from rfl,
      nub_block 'u' ['2', '0', '2', '8'] rest (by decide) (by decide)]
    exact hr
  · rw [show ("\\u2029" : String).data = ['\\', 'u', '2', '0', '2', '9'] from rfl,
      nub_block 'u' ['2', '0', '2', '9'] rest (by decide) (by decide)]
    exact hr
  · rw [show (String.mk [c]).data = [c] from rfl, List.singleton_append,
      nub_single c rest h2]
    exact hr

theorem escapeList_good (cs : List Char) :
    escChar ∉ escapeList cs ∧
    ∀ rest, noUnescapedBS rest = true →
      noUnescapedBS (escapeList cs ++ rest) = true := by
  induction cs with
  | nil => exact ⟨by simp [escapeList], fun rest hr => hr⟩
  | cons c cs ih =>
    constructor
    · rw [escapeList]
      intro hmem
      rcases List.mem_append.mp hmem with h | h
      · exact escapeChar_no_esc c h
      · exact ih.1 h
    · intro rest hr
      rw [escapeList, List.append_assoc]
      exact escapeChar_nub c _ (ih.2 rest hr)

theorem jsonQuote_good (t : String) :
    escChar ∉ (jsonQuote t).data ∧
    ∀ rest, noUnescapedBS rest = true →
      noUnescapedBS ((jsonQuote t).data ++ rest) = true := by
  constructor
  · rw [show (jsonQuote t).data = '"' :: (escapeList t.data ++ ['"']) from rfl]
    intro hmem
    rcases List.mem_cons.mp hmem with h | h
    · exact absurd h (by decide)
    · rcases List.mem_append.mp h with h2 | h2
      · exact (escapeList_good t.data).1 h2
      · rcases List.mem_singleton.mp h2 with h3
        exact absurd h3 (by decide)
  · intro rest hr
    rw [show (jsonQuote t).data = '"' :: (escapeList t.data ++ ['"']) from rfl,
      List.cons_append, nub_single '"' _ (by decide), List.append_assoc]
    refine (escapeList_good t.data).2 _ ?_
    rw [List.singleton_append, nub_single '"' rest (by decide)]
    exact hr

theorem jsonArrayItems_good (ts : List String) :
    escChar ∉ jsonArrayItems ts ∧
    ∀ rest, noUnescapedBS rest = true →
      noUnescapedBS (jsonArrayItems ts ++ rest) = true := by
  induction ts with
  | nil => exact ⟨by simp [jsonArrayItems], fun rest hr => hr⟩
  | cons t ts ih =>
    constructor
    · rw [jsonArrayItems]
      intro hmem
      rcases List.mem_append.mp hmem with h | h
      · exact (jsonQuote_good t).1 h
      · rcases List.mem_append.mp h with h2 | h2
        · by_cases he : ts.isEmpty
          · rw [if_pos he] at h2
            exact absurd h2 (List.not_mem_nil escChar)
          · rw [if_neg he] at h2
            rcases List.mem_singleton.mp h2 with h3
            exact absurd h3 (by decide)
        · exact ih.1 h2
    · intro rest hr
      rw [jsonArrayItems, List.append_assoc]
      refine (jsonQuote_good t).2 _ ?_
      rw [List.append_assoc]
      by_cases he : ts.isEmpty
      · rw [if_pos he, List.nil_append]
        exact ih.2 rest hr
      · rw [if_neg he, List.singleton_append, nub_single ',' _ (by decide)]
        exact ih.2 rest hr

/-- C7: the JSON escaping of the encoder never lets the escape byte 0x1B
appear at all inside the json-level or json-tags payload, and every
backslash in a payload is part of a JSON escape sequence (never an
unescaped terminator byte); the tag made of the two bytes ESC backslash
renders as the tags array containing the six-character escape u001b
followed by an escaped backslash. -/
theorem encoder_escaping_framing :
    (∀ level : String, escChar ∉ (jsonQuote level).data ∧
      noUnescapedBS (jsonQuote level).data = true) ∧
    (∀ ts : List String, escChar ∉ (jsonArray ts).data ∧
      noUnescapedBS (jsonArray ts).data = true) ∧
    jsonArray [String.mk [escChar, '\\']] = "[\"\\u001b\\\\\"]" := by
  refine ⟨fun level => ⟨(jsonQuote_good level).1, ?_⟩, fun ts => ⟨?_, ?_⟩, by decide⟩
  · have hq := (jsonQuote_good level).2 [] rfl
    simpa using hq
  · rw [show (jsonArray ts).data = '[' :: (jsonArrayItems ts ++ [']']) from rfl]
    intro hmem
    rcases List.mem_cons.mp hmem with h | h
    · exact absurd h (by decide)
    · rcases List.mem_append.mp h with h2 | h2
      · exact (jsonArrayItems_good ts).1 h2
      · rcases List.mem_singleton.mp h2 with h3
        exact absurd h3 (by decide)
  · rw [show (jsonArray ts).data = '[' :: (jsonArrayItems ts ++ [']']) from rfl,
      nub_single '[' _ (by decide)]
    exact (jsonArrayItems_good ts).2 [']'] (by decide)

/-- C3: WithLevel and WithTags at the heap level allocate the result in a
fresh cell and leave the receiver's cell — hence its Level, Tags and
cached header — untouched; the returned logger is the field-for-field
copy with the one replaced field and a recomputed header. -/
theorem with_ops_do_not_mutate_receiver (h : LHeap) (next recv : Nat)
    (level : String) (tags : Option (List String)) (hlt : recv < next) :
    (withLevelH h next recv level).2.1 recv = h recv ∧
    (withLevelH h next recv level).1 ≠ recv ∧
    (withLevelH h next recv level).2.1 (withLevelH h next recv level).1 =
      (h recv).WithLevel level ∧
    ((withLevelH h next recv level).2.1 recv).Level = (h recv).Level ∧
    ((withLevelH h next recv level).2.1 recv).Tags = (h recv).Tags ∧
    ((withLevelH h next recv level).2.1 recv).lineHdr = (h recv).lineHdr ∧
    (withTagsH h next recv tags).2.1 recv = h recv ∧
    (withTagsH h next recv tags).1 ≠ recv ∧
    (withTagsH h next recv tags).2.1 (withTagsH h next recv tags).1 =
      (h recv).WithTags tags ∧
    ((withTagsH h next recv tags).2.1 recv).Level = (h recv).Level ∧
    ((withTagsH h next recv tags).2.1 recv).Tags = (h recv).Tags ∧
    ((withTagsH h next recv tags).2.1 recv).lineHdr = (h recv).lineHdr := by
  have hne : recv ≠ next := Nat.ne_of_lt hlt
  refine ⟨?_, ?_, ?_, ?_, ?_, ?_, ?_, ?_, ?_, ?_, ?_, ?_⟩ <;>
    simp [withLevelH, withTagsH, hne, Ne.symm hne]

/-- Witness for C3 at a concrete one-cell heap. -/
theorem with_ops_do_not_mutate_receiver_witness :
    (withLevelH (fun _ => New 0) 1 0 SpamLevel).2.1 0 = New 0 ∧
    (withTagsH (fun _ => New 0) 1 0 (some ["a"])).2.1 0 = New 0 :=
  ⟨(with_ops_do_not_mutate_receiver (fun _ => New 0) 1 0 SpamLevel (some ["a"])
      (by decide)).1,
   (with_ops_do_not_mutate_receiver (fun _ => New 0) 1 0 SpamLevel (some ["a"])
      (by decide)).2.2.2.2.2.2.1⟩

/-- C8: the encoder never propagates an encoding failure; in particular
WithTags with zero variadic arguments (the nil slice, whose marshalling
yields "null" and triggers the fallback) produces a logger equivalent to
one with empty tags, and its printed tags header field is exactly []. -/
theorem withTags_empty_default (l : Logger) :
    (l.WithTags none).lineHdr = (l.WithTags (some [])).lineHdr ∧
    (l.WithTags none).Tags = (l.WithTags (some [])).Tags ∧
    (l.WithTags none).Level = l.Level ∧
    (l.WithTags none).lineHdr =
      escS ++ "_klio_log_level " ++ jsonQuote l.level ++ escS ++ "\\" ++
      escS ++ "_klio_tags " ++ "[]" ++ escS ++ "\\" := by
  have h1 : jsonArray ([] : List String) = "[]" := by decide
  refine ⟨?_, rfl, rfl, ?_⟩ <;>
    simp [Logger.WithTags, updateLineHdr, jsonMarshalTags, jsonMarshalLevel, h1]

/-- C9: the Tags getter at the heap level returns a freshly allocated
slice whose contents equal the logger's tags; writing an element through
the returned slice leaves the logger's own slice, and therefore the
result of any later Tags call, unchanged. -/
theorem tags_defensive_copy (h : SHeap) (next : Nat) (l : LoggerS) (i : Nat) (v : String)
    (hlt : l.tagsId < next) :
    (tagsMethodS h next l).2.1 (tagsMethodS h next l).1 = h l.tagsId ∧
    (tagsMethodS h next l).1 ≠ l.tagsId ∧
    sliceSet (tagsMethodS h next l).2.1 (tagsMethodS h next l).1 i v l.tagsId
      = h l.tagsId ∧
    (tagsMethodS (sliceSet (tagsMethodS h next l).2.1 (tagsMethodS h next l).1 i v)
        (tagsMethodS h next l).2.2 l).2.1
      (tagsMethodS (sliceSet (tagsMethodS h next l).2.1 (tagsMethodS h next l).1 i v)
        (tagsMethodS h next l).2.2 l).1 = h l.tagsId := by
  have hne : l.tagsId ≠ next := Nat.ne_of_lt hlt
  have hne2 : l.tagsId ≠ next + 1 := Nat.ne_of_lt (Nat.lt_succ_of_lt hlt)
  refine ⟨?_, ?_, ?_, ?_⟩ <;> simp [tagsMethodS, sliceSet, hne, hne2, Ne.symm hne]

/-- Witness for C9 at a concrete heap holding the tags a, b. -/
theorem tags_defensive_copy_witness :
    (tagsMethodS (fun _ => ["a", "b"]) 1 ⟨0⟩).2.1 (tagsMethodS (fun _ => ["a", "b"]) 1 ⟨0⟩).1
      = ["a", "b"] ∧
    sliceSet (tagsMethodS (fun _ => ["a", "b"]) 1 ⟨0⟩).2.1
        (tagsMethodS (fun _ => ["a", "b"]) 1 ⟨0⟩).1 0 "xyz" 0 = ["a", "b"] :=
  ⟨(tags_defensive_copy (fun _ => ["a", "b"]) 1 ⟨0⟩ 0 "xyz" (by decide)).1,
   (tags_defensive_copy (fun _ => ["a", "b"]) 1 ⟨0⟩ 0 "xyz" (by decide)).2.2.1⟩

end Klio
